import Mathlib

/-!
Shallow embedding of the enterprython dependency-injection core
(src/enterprython/_inject.py) and proofs about it.

Python classes are modelled by name together with the data the runtime
reflection layer provides: their method-resolution order (mro), whether
they are abstract, and the ordered constructor-parameter list (the `self`
parameter is omitted; all modelled parameters are POSITIONAL_OR_KEYWORD,
the only kind `assemble` accepts).  The mutable module-level registry
`ENTERPRYTHON_COMPONENTS` becomes an explicit state record threaded
through the operations, and object identity is modelled by a fresh
allocation counter: constructing an instance consumes the next id.
Python exceptions become an error type returned through `Except`; the
unbounded recursion of `assemble` is modelled with explicit fuel, whose
exhaustion is a distinguished error (`fuelExhausted` corresponds to a
run that does not terminate, e.g. on a cyclic dependency graph).
-/

namespace Enterprython

/-- Runtime values: opaque primitives (used for defaults and caller
overrides), Python lists, and constructed objects.  An object records
the class it was constructed from, its allocation id (modelling
reference identity) and the keyword arguments the constructor
received. -/
inductive Value where
  | prim (tag : String)
  | vlist (elems : List Value)
  | obj (cls : String) (id : Nat) (fields : List (String × Value))

/-- A constructor parameter annotation: absent (`inspect.Parameter.empty`),
a plain class, or `List[elem]` (for which `_is_list_type` returns true). -/
inductive Ann where
  | untyped
  | cls (name : String)
  | listOf (elemName : String)

/-- One constructor parameter as reported by `inspect.signature`:
its name, its annotation, and its default value if any. -/
structure Param where
  name : String
  ann : Ann
  dflt : Option Value

/-- A Python class as seen by the reflection layer: name, method
resolution order (`inspect.getmro`, the class itself included),
abstractness, and the constructor parameters (without `self`). -/
structure PyClass where
  name : String
  mro : List String
  isAbstract : Bool
  params : List Param

/-- The collection of classes defined by the program under test. -/
def Env := List PyClass

/-- Resolve a class by name. -/
def lookupClass (env : Env) (n : String) : Option PyClass :=
  env.find? (fun c => c.name == n)

/-- Model of `_Component`: a registry entry.  `baseClasses` is `inspect.getmro`
of the registered type, computed at registration; `inst` is the
singleton cache (`_instance`), `none` initially. -/
structure Component where
  typeName : String
  isSingleton : Bool
  baseClasses : List String
  inst : Option Value

/-- Model of `_Component.matches`: the component can be injected for `t`
iff `t` is among its base classes. -/
def Component.matchesType (c : Component) (t : String) : Bool :=
  c.baseClasses.contains t

/-- The module-level mutable state: `ENTERPRYTHON_COMPONENTS` plus the
allocation counter that models object identity. -/
structure St where
  components : List Component
  nextId : Nat

/-- The TypeError-class (and assertion) failures the code can raise,
plus fuel exhaustion (a non-terminating run). -/
inductive DIError where
  | ambiguous (typeName : String)
  | alreadyRegistered (typeName : String)
  | abstractClass (typeName : String)
  | classNotFound (typeName : String)
  | missingArgument (typeName paramName : String)
  | unexpectedKeyword (typeName paramName : String)
  | assertionFailed
  | fuelExhausted

/-- The components matching `t` paired with their registry index,
in registration order. -/
def findMatchIdx : List Component → String → Nat → List (Nat × Component)
  | [], _, _ => []
  | c :: cs, t, i =>
    if c.matchesType t then (i, c) :: findMatchIdx cs t (i + 1)
    else findMatchIdx cs t (i + 1)

/-- Model of `_get_components`: every stored component matching `t`, in
registration order. -/
def getComponents (s : St) (t : String) : List Component :=
  s.components.filter (fun c => c.matchesType t)

/-- Model of `_get_component`: raises the Ambiguous-dependency error when more than one
component matches, returns `none` when zero match, otherwise the unique
match (here paired with its registry index, standing for the object
reference Python hands back). -/
def getComponent (s : St) (t : String) : Except DIError (Option (Nat × Component)) :=
  match findMatchIdx s.components t 0 with
  | [] => .ok none
  | [ic] => .ok (some ic)
  | _ :: _ :: _ => .error (.ambiguous t)

/-- Model of `_Component.get_instance`, including its assertion
`self._is_singleton or self._instance is None`. -/
def getInstance (c : Component) : Except DIError (Option Value) :=
  if c.isSingleton then .ok c.inst
  else match c.inst with
    | some _ => .error .assertionFailed
    | none => .ok none

/-- Model of `_Component.set_instance_if_singleton` applied to the component at
registry index `i`, including its assertion `self._instance is None`. -/
def setInstanceAt (s : St) (i : Nat) (v : Value) : Except DIError St :=
  match s.components.get? i with
  | none => .ok s
  | some c =>
    if c.isSingleton then
      match c.inst with
      | some _ => .error .assertionFailed
      | none => .ok { s with components := s.components.set i { c with inst := some v } }
    else .ok s

/-- Dictionary lookup in the `arguments` dict. -/
def lookupArg (args : List (String × Value)) (n : String) : Option Value :=
  match args with
  | [] => none
  | a :: rest => if a.1 == n then some a.2 else lookupArg rest n

/-- Dictionary assignment `arguments[name] = v`: replaces an existing
binding for `name`, otherwise appends. -/
def setArg (args : List (String × Value)) (n : String) (v : Value) : List (String × Value) :=
  match args with
  | [] => [(n, v)]
  | a :: rest => if a.1 == n then (n, v) :: rest else a :: setArg rest n v

/-- Python call binding for `the_type(**arguments)`: each parameter
takes the supplied keyword argument, else its default, else the call
raises the TypeError for a missing required argument (which names the
parameter and arises from constructing `tname`). -/
def bindParams (tname : String) (ps : List Param) (args : List (String × Value)) :
    Except DIError (List (String × Value)) :=
  match ps with
  | [] => .ok []
  | p :: rest =>
    match lookupArg args p.name, p.dflt with
    | some v, _ =>
      match bindParams tname rest args with
      | .error e => .error e
      | .ok fs => .ok ((p.name, v) :: fs)
    | none, some d =>
      match bindParams tname rest args with
      | .error e => .error e
      | .ok fs => .ok ((p.name, d) :: fs)
    | none, none => .error (.missingArgument tname p.name)

/-- Invoking `cls(**args)`: abstract classes cannot be instantiated,
unexpected keywords and missing required arguments raise TypeError,
otherwise a fresh object is allocated. -/
def callClass (s : St) (cls : PyClass) (args : List (String × Value)) :
    Except DIError (Value × St) :=
  if cls.isAbstract then .error (.abstractClass cls.name)
  else match args.find? (fun a => !(cls.params.any (fun p => p.name == a.1))) with
  | some a => .error (.unexpectedKeyword cls.name a.1)
  | none =>
    match bindParams cls.name cls.params args with
    | .error e => .error e
    | .ok fields => .ok (.obj cls.name s.nextId fields, { s with nextId := s.nextId + 1 })

/-- The tail of `assemble`: `result = the_type(**arguments)` followed by
`stored_component.set_instance_if_singleton(result)` when a component
was found for the requested type. -/
def buildAndCache (s : St) (cls : PyClass) (args : List (String × Value))
    (idx : Option Nat) : Except DIError (Value × St) :=
  match callClass s cls args with
  | .error e => .error e
  | .ok (v, s') =>
    match idx with
    | none => .ok (v, s')
    | some i =>
      match setInstanceAt s' i v with
      | .error e => .error e
      | .ok s'' => .ok (v, s'')

mutual

/-- Model of `assemble(the_type, **kwargs)`: look up a stored component, return
its cached singleton instance if present, otherwise resolve every
constructor parameter (caller keywords are the starting `arguments`
dict and are overwritten by whatever the parameter loop computes, as in
the source), construct, and cache if singleton. -/
def assemble (env : Env) : Nat → St → String → List (String × Value) →
    Except DIError (Value × St)
  | 0, _, _, _ => .error .fuelExhausted
  | f + 1, s, t, kwargs =>
    match getComponent s t with
    | .error e => .error e
    | .ok stored =>
      match stored with
      | some (i, c) =>
        match getInstance c with
        | .error e => .error e
        | .ok (some v) => .ok (v, s)
        | .ok none =>
          match lookupClass env t with
          | none => .error (.classNotFound t)
          | some cls =>
            match assembleParams env f s cls.params kwargs with
            | .error e => .error e
            | .ok (args, s₁) => buildAndCache s₁ cls args (some i)
      | none =>
        match lookupClass env t with
        | none => .error (.classNotFound t)
        | some cls =>
          match assembleParams env f s cls.params kwargs with
          | .error e => .error e
          | .ok (args, s₁) => buildAndCache s₁ cls args none

/-- The parameter loop of `assemble`: a `List[e]` annotation binds the
list of recursively assembled matching components, a class annotation
with a unique matching component binds its recursive assembly
(overwriting any caller-supplied keyword, as the source does), and an
untyped annotation or an unmatched class leaves the arguments dict
untouched for that parameter. -/
def assembleParams (env : Env) : Nat → St → List Param → List (String × Value) →
    Except DIError (List (String × Value) × St)
  | _, s, [], args => .ok (args, s)
  | 0, _, _ :: _, _ => .error .fuelExhausted
  | f + 1, s, p :: rest, args =>
      match p.ann with
      | .untyped => assembleParams env f s rest args
      | .listOf e =>
        match assembleEach env f s ((getComponents s e).map (fun c => c.typeName)) with
        | .error err => .error err
        | .ok (vs, s₁) => assembleParams env f s₁ rest (setArg args p.name (.vlist vs))
      | .cls cname =>
        match getComponent s cname with
        | .error err => .error err
        | .ok none => assembleParams env f s rest args
        | .ok (some (_, c)) =>
          match assemble env f s c.typeName [] with
          | .error err => .error err
          | .ok (v, s₁) => assembleParams env f s₁ rest (setArg args p.name v)

/-- Model of the list expression at lines 89-91 of the source:
assemble each target type in order, threading the registry state. -/
def assembleEach (env : Env) : Nat → St → List String →
    Except DIError (List Value × St)
  | _, s, [] => .ok ([], s)
  | 0, _, _ :: _ => .error .fuelExhausted
  | f + 1, s, n :: rest =>
      match assemble env f s n [] with
      | .error e => .error e
      | .ok (v, s₁) =>
        match assembleEach env f s₁ rest with
        | .error e => .error e
        | .ok (vs, s₂) => .ok (v :: vs, s₂)

end

/-- The `component()` decorator followed by `_add_component`: only
non-abstract classes may be registered, a type whose lookup already
finds a component is a duplicate registration, otherwise a fresh
component (with empty cache) is appended to the registry. -/
def registerComponent (env : Env) (s : St) (t : String) (singleton : Bool) :
    Except DIError St :=
  match lookupClass env t with
  | none => .error (.classNotFound t)
  | some cls =>
    if cls.isAbstract then .error (.abstractClass t)
    else match getComponent s t with
      | .error e => .error e
      | .ok (some _) => .error (.alreadyRegistered t)
      | .ok none =>
        .ok { s with components := s.components ++ [⟨t, singleton, cls.mro, none⟩] }

/-! ### Basic lemmas about the registry lookup helpers -/

theorem findMatchIdx_map_snd (l : List Component) (t : String) :
    ∀ k, (findMatchIdx l t k).map (fun ic => ic.2) = l.filter (fun c => c.matchesType t) := by
  induction l with
  | nil => intro k; rfl
  | cons c cs ih =>
    intro k
    by_cases h : c.matchesType t
    · simp [findMatchIdx, List.filter_cons, h, ih]
    · simp [findMatchIdx, List.filter_cons, h, ih]

theorem findMatchIdx_length (s : St) (t : String) :
    (findMatchIdx s.components t 0).length = (getComponents s t).length := by
  have h := findMatchIdx_map_snd s.components t 0
  calc (findMatchIdx s.components t 0).length
      = ((findMatchIdx s.components t 0).map (fun ic => ic.2)).length :=
        (List.length_map _ _).symm
    _ = (getComponents s t).length := by rw [h]; rfl

theorem assembleEach_length (env : Env) :
    ∀ (ns : List String) (fuel : Nat) (s : St) (vs : List Value) (s' : St),
      assembleEach env fuel s ns = .ok (vs, s') → vs.length = ns.length := by
  intro ns
  induction ns with
  | nil =>
    intro fuel s vs s' h
    rw [assembleEach] at h
    injection h with h
    injection h with h1 h2
    rw [← h1]
    rfl
  | cons n rest ih =>
    intro fuel s vs s' h
    match fuel with
    | 0 => rw [assembleEach] at h; cases h
    | f + 1 =>
      rw [assembleEach] at h
      split at h
      · cases h
      · split at h
        · cases h
        · injection h with h
          injection h with h1 h2
          subst h1
          simp only [List.length_cons]
          exact congrArg (fun m => m + 1) (ih f _ _ _ (by assumption))

theorem getComponent_none_findMatchIdx (s : St) (t : String)
    (h : getComponent s t = .ok none) : findMatchIdx s.components t 0 = [] := by
  rcases hm : findMatchIdx s.components t 0 with _ | ⟨a, _ | ⟨b, rest⟩⟩
  · rfl
  · unfold getComponent at h; rw [hm] at h; cases h
  · unfold getComponent at h; rw [hm] at h; cases h

theorem findMatchIdx_append_single (l : List Component) (t : String) (c : Component) :
    ∀ k, findMatchIdx l t k = [] →
      findMatchIdx (l ++ [c]) t k =
        if c.matchesType t then [(k + l.length, c)] else [] := by
  induction l with
  | nil =>
    intro k _
    by_cases hc : c.matchesType t <;> simp [findMatchIdx, hc]
  | cons d ds ih =>
    intro k hempty
    rw [findMatchIdx] at hempty
    by_cases hd : d.matchesType t
    · rw [if_pos hd] at hempty; cases hempty
    · rw [if_neg hd] at hempty
      rw [List.cons_append, findMatchIdx, if_neg hd, ih (k + 1) hempty]
      have harith : k + 1 + ds.length = k + (ds.length + 1) := by omega
      by_cases hc : c.matchesType t <;> simp [hc, harith]

/-! ### Evolution of the registry state across assembly -/

/-- How one registry entry may change across an assembly: its identity
data (type, lifecycle, base classes) is untouched, and its cache either
stays as it was or goes from empty to populated — the latter only for a
singleton. -/
def compEvol (c c' : Component) : Prop :=
  c'.typeName = c.typeName ∧ c'.isSingleton = c.isSingleton ∧
  c'.baseClasses = c.baseClasses ∧
  (c'.inst = c.inst ∨ (c.inst = none ∧ c.isSingleton = true ∧ ∃ v, c'.inst = some v))

theorem compEvol_refl (c : Component) : compEvol c c := ⟨rfl, rfl, rfl, Or.inl rfl⟩

theorem compEvol_trans {c₁ c₂ c₃ : Component} (h1 : compEvol c₁ c₂) (h2 : compEvol c₂ c₃) :
    compEvol c₁ c₃ := by
  obtain ⟨t1, s1, b1, i1⟩ := h1
  obtain ⟨t2, s2, b2, i2⟩ := h2
  refine ⟨t2.trans t1, s2.trans s1, b2.trans b1, ?_⟩
  rcases i1 with h | ⟨hn, hs, v, hv⟩
  · rcases i2 with h2i | ⟨hn2, hs2, v2, hv2⟩
    · exact Or.inl (h2i.trans h)
    · exact Or.inr ⟨h.symm.trans hn2, s1.symm.trans hs2, v2, hv2⟩
  · rcases i2 with h2i | ⟨hn2, hs2, v2, hv2⟩
    · exact Or.inr ⟨hn, hs, v, h2i.trans hv⟩
    · rw [hv] at hn2; cases hn2

/-- The registry evolves monotonically across an assembly: the
allocation counter never decreases, no component is added or removed,
and every entry evolves per `compEvol` (in particular a populated
singleton cache is never overwritten). -/
def StEvol (s s' : St) : Prop :=
  s.nextId ≤ s'.nextId ∧
  s'.components.length = s.components.length ∧
  ∀ j c c', s.components.get? j = some c → s'.components.get? j = some c' → compEvol c c'

theorem StEvol_refl (s : St) : StEvol s s := by
  refine ⟨Nat.le_refl _, rfl, ?_⟩
  intro j c c' h1 h2
  rw [h1] at h2
  injection h2 with h2
  rw [← h2]
  exact compEvol_refl c

theorem StEvol_trans {s₁ s₂ s₃ : St} (h1 : StEvol s₁ s₂) (h2 : StEvol s₂ s₃) :
    StEvol s₁ s₃ := by
  obtain ⟨n1, l1, p1⟩ := h1
  obtain ⟨n2, l2, p2⟩ := h2
  refine ⟨n1.trans n2, l2.trans l1, ?_⟩
  intro j c c' hc hc'
  have hj1 : j < s₁.components.length := by
    rcases List.get?_eq_some.mp hc with ⟨hl, _⟩
    exact hl
  have hj : j < s₂.components.length := by omega
  have hmid := List.get?_eq_get hj
  exact compEvol_trans (p1 j c _ hc hmid) (p2 j _ c' hmid hc')

theorem StEvol_of_eq {s s' : St} (hc : s'.components = s.components)
    (hn : s.nextId ≤ s'.nextId) : StEvol s s' := by
  refine ⟨hn, by rw [hc], ?_⟩
  intro j c c' h1 h2
  rw [hc, h1] at h2
  injection h2 with h2
  rw [← h2]
  exact compEvol_refl c

theorem callClass_evol {s : St} {cls : PyClass} {args : List (String × Value)}
    {v : Value} {s' : St} (h : callClass s cls args = .ok (v, s')) :
    s'.components = s.components ∧ s.nextId ≤ s'.nextId := by
  rw [callClass] at h
  split at h
  · cases h
  · split at h
    · cases h
    · split at h
      · cases h
      · injection h with h
        injection h with h1 h2
        rw [← h2]
        exact ⟨rfl, Nat.le_succ _⟩

theorem setInstanceAt_evol {s : St} {i : Nat} {v : Value} {s' : St}
    (h : setInstanceAt s i v = .ok s') : StEvol s s' ∧ s'.nextId = s.nextId := by
  rw [setInstanceAt] at h
  split at h
  · injection h with h
    rw [← h]
    exact ⟨StEvol_refl s, rfl⟩
  · rename_i c hc
    split at h
    · rename_i hsing
      split at h
      · cases h
      · rename_i hinst
        injection h with h
        rw [← h]
        refine ⟨⟨Nat.le_refl _, by simp, ?_⟩, rfl⟩
        intro j cj cj' h1 h2
        by_cases hij : j = i
        · subst hij
          rw [hc] at h1
          injection h1 with h1
          have hlt : j < s.components.length := by
            rcases List.get?_eq_some.mp hc with ⟨hl, _⟩
            exact hl
          rw [List.get?_eq_getElem?, List.getElem?_set_self hlt] at h2
          injection h2 with h2
          rw [← h1, ← h2]
          exact ⟨rfl, rfl, rfl, Or.inr ⟨hinst, hsing, v, rfl⟩⟩
        · have hji : i ≠ j := fun he => hij he.symm
          rw [List.get?_eq_getElem?, List.getElem?_set_ne hji, ← List.get?_eq_getElem?] at h2
          rw [h1] at h2
          injection h2 with h2
          rw [← h2]
          exact compEvol_refl cj
    · injection h with h
      rw [← h]
      exact ⟨StEvol_refl s, rfl⟩

theorem buildAndCache_evol {s : St} {cls : PyClass} {args : List (String × Value)}
    {idx : Option Nat} {v : Value} {s' : St}
    (h : buildAndCache s cls args idx = .ok (v, s')) : StEvol s s' := by
  rw [buildAndCache] at h
  split at h
  · cases h
  · rename_i v0 s₁ hcall
    obtain ⟨hc, hn⟩ := callClass_evol hcall
    have e1 : StEvol s s₁ := StEvol_of_eq hc hn
    split at h
    · injection h with h
      injection h with h1 h2
      rw [← h2]
      exact e1
    · split at h
      · cases h
      · rename_i s₂ hset
        injection h with h
        injection h with h1 h2
        obtain ⟨e2, _⟩ := setInstanceAt_evol hset
        rw [← h2]
        exact StEvol_trans e1 e2

/-- Preservation, proved for the three mutually recursive assembly
functions at once by induction on the fuel: every successful run takes
the registry state to an `StEvol`-related state. -/
theorem evol_all (fuel : Nat) :
    (∀ env s t kwargs v s', assemble env fuel s t kwargs = .ok (v, s') → StEvol s s')
    ∧ (∀ env s ps args res s', assembleParams env fuel s ps args = .ok (res, s') → StEvol s s')
    ∧ (∀ env s ns vs s', assembleEach env fuel s ns = .ok (vs, s') → StEvol s s') := by
  induction fuel with
  | zero =>
    refine ⟨?_, ?_, ?_⟩
    · intro env s t kwargs v s' h
      rw [assemble] at h
      cases h
    · intro env s ps args res s' h
      cases ps with
      | nil =>
        rw [assembleParams] at h
        injection h with h
        injection h with h1 h2
        rw [← h2]
        exact StEvol_refl s
      | cons p rest =>
        rw [assembleParams] at h
        cases h
    · intro env s ns vs s' h
      cases ns with
      | nil =>
        rw [assembleEach] at h
        injection h with h
        injection h with h1 h2
        rw [← h2]
        exact StEvol_refl s
      | cons n rest =>
        rw [assembleEach] at h
        cases h
  | succ f ih =>
    obtain ⟨ihA, ihP, ihE⟩ := ih
    refine ⟨?_, ?_, ?_⟩
    · intro env s t kwargs v s' h
      rw [assemble] at h
      split at h
      · cases h
      · split at h
        · split at h
          · cases h
          · injection h with h
            injection h with h1 h2
            rw [← h2]
            exact StEvol_refl s
          · split at h
            · cases h
            · split at h
              · cases h
              · rename_i args1 s₁ hP
                exact StEvol_trans (ihP _ _ _ _ _ _ hP) (buildAndCache_evol h)
        · split at h
          · cases h
          · split at h
            · cases h
            · rename_i args1 s₁ hP
              exact StEvol_trans (ihP _ _ _ _ _ _ hP) (buildAndCache_evol h)
    · intro env s ps args res s' h
      cases ps with
      | nil =>
        rw [assembleParams] at h
        injection h with h
        injection h with h1 h2
        rw [← h2]
        exact StEvol_refl s
      | cons p rest =>
        rw [assembleParams] at h
        split at h
        · exact ihP _ _ _ _ _ _ h
        · split at h
          · cases h
          · rename_i vs0 s₁ hE
            exact StEvol_trans (ihE _ _ _ _ _ hE) (ihP _ _ _ _ _ _ h)
        · split at h
          · cases h
          · exact ihP _ _ _ _ _ _ h
          · split at h
            · cases h
            · rename_i v0 s₁ hA
              exact StEvol_trans (ihA _ _ _ _ _ _ hA) (ihP _ _ _ _ _ _ h)
    · intro env s ns vs s' h
      cases ns with
      | nil =>
        rw [assembleEach] at h
        injection h with h
        injection h with h1 h2
        rw [← h2]
        exact StEvol_refl s
      | cons n rest =>
        rw [assembleEach] at h
        split at h
        · cases h
        · rename_i v0 s₁ hA
          split at h
          · cases h
          · rename_i vs0 s₂ hE
            injection h with h
            injection h with h1 h2
            rw [← h2]
            exact StEvol_trans (ihA _ _ _ _ _ _ hA) (ihE _ _ _ _ _ hE)

/-- Specialization of `evol_all` to `assemble`. -/
theorem assemble_evol {env : Env} {fuel : Nat} {s : St} {t : String}
    {kwargs : List (String × Value)} {v : Value} {s' : St}
    (h : assemble env fuel s t kwargs = .ok (v, s')) : StEvol s s' :=
  (evol_all fuel).1 env s t kwargs v s' h

/-! ### A small concrete program used to exercise the theorems -/

/-- Classes mirroring the shapes exercised by tests.py: leaf services
(`S` singleton-registered, `T` transient-registered), two
implementations `MA`/`MB` of the capability `MI`, a client `CL`
demanding all `MI` implementations, a service `SB` with a client `CB`
that also declares a default, a client `NC` of an unregistered
dependency, clients `U1`/`U2` with an untyped parameter (without and
with default), and a client `EL` with a list parameter and a default. -/
def envW : Env := [
  ⟨"S", ["S"], false, []⟩,
  ⟨"T", ["T"], false, []⟩,
  ⟨"MA", ["MA", "MI"], false, []⟩,
  ⟨"MB", ["MB", "MI"], false, []⟩,
  ⟨"CL", ["CL"], false, [⟨"services", .listOf "MI", none⟩]⟩,
  ⟨"SB", ["SB"], false, []⟩,
  ⟨"CB", ["CB"], false, [⟨"service_b", .cls "SB", some (.prim "BDefault")⟩]⟩,
  ⟨"NC", ["NC"], false, [⟨"dep", .cls "Nowhere", none⟩]⟩,
  ⟨"U1", ["U1"], false, [⟨"service", .untyped, none⟩]⟩,
  ⟨"U2", ["U2"], false, [⟨"service", .untyped, some (.prim "d")⟩]⟩,
  ⟨"EL", ["EL"], false, [⟨"caps", .listOf "MI", some (.prim "unusedDefault")⟩]⟩ ]

/-- Empty registry. -/
def stEmpty : St := ⟨[], 0⟩

/-- Registry holding `S` as a singleton component. -/
def stS : St := ⟨[⟨"S", true, ["S"], none⟩], 0⟩

/-- Registry holding `T` as a transient component. -/
def stT : St := ⟨[⟨"T", false, ["T"], none⟩], 0⟩

/-- Registry holding `MA` then `MB`, both matching the capability
`MI`, in that registration order. -/
def stMI : St := ⟨[⟨"MA", true, ["MA", "MI"], none⟩, ⟨"MB", true, ["MB", "MI"], none⟩], 0⟩

/-- Registry holding `SB` as a singleton component. -/
def stSB : St := ⟨[⟨"SB", true, ["SB"], none⟩], 0⟩

/-! ### Claim theorems -/

/-- Environment for the caller-override scenario of the test
`test_manual_overwrite` from tests.py: `ClientAB` depends on `ServiceA` and
`ServiceB`. -/
def envAB : Env := [
  ⟨"ServiceA", ["ServiceA"], false, []⟩,
  ⟨"ServiceB", ["ServiceB"], false, []⟩,
  ⟨"ClientAB", ["ClientAB"], false,
    [⟨"service_a", .cls "ServiceA", none⟩, ⟨"service_b", .cls "ServiceB", none⟩]⟩ ]

/-- Registry after registering `ServiceA`, `ServiceB` and `ClientAB`
(all singletons, registration order as in the test module). -/
def stAB : St := ⟨[⟨"ServiceA", true, ["ServiceA"], none⟩,
                   ⟨"ServiceB", true, ["ServiceB"], none⟩,
                   ⟨"ClientAB", true, ["ClientAB"], none⟩], 0⟩

/-- C1: the claim fails on this code.  Evaluating `assemble` at the
failing input `assemble(ClientAB, service_b=BManual)` shows that the
caller-supplied value for `service_b` is overwritten by the recursively
assembled registered `ServiceB` component (the fresh object with id 1):
line 85 seeds `arguments` with the kwargs, but the parameter loop at
lines 92-95 assigns `arguments[parameter_name]` unconditionally, so the
override neither wins nor suppresses recursion, contradicting the spec
and `test_manual_overwrite` in tests.py. -/
theorem assemble_ignores_caller_override :
    (assemble envAB 4 stAB "ClientAB" [("service_b", .prim "BManual")]).map (fun r => r.1) =
      .ok (.obj "ClientAB" 2
        [("service_a", .obj "ServiceA" 0 []), ("service_b", .obj "ServiceB" 1 [])]) := rfl

/-- C3: whenever at least two registered components match a requested
type, assembling that type fails with the Ambiguous-dependency
TypeError; when zero components match, the lookup itself returns `none`
rather than an error (the assembly then proceeds to defaults or direct
construction). -/
theorem ambiguous_or_absent_lookup (s : St) (t : String) :
    (2 ≤ (getComponents s t).length →
      ∀ env fuel kwargs, assemble env (fuel + 1) s t kwargs = .error (.ambiguous t))
    ∧ ((getComponents s t).length = 0 → getComponent s t = .ok none) := by
  have hlen := findMatchIdx_length s t
  constructor
  · intro h2 env fuel kwargs
    have hg : getComponent s t = .error (.ambiguous t) := by
      rcases hm : findMatchIdx s.components t 0 with _ | ⟨a, _ | ⟨b, rest⟩⟩
      · rw [hm] at hlen; simp at hlen; omega
      · rw [hm] at hlen; simp at hlen; omega
      · unfold getComponent; rw [hm]
    rw [assemble, hg]
  · intro h0
    rcases hm : findMatchIdx s.components t 0 with _ | ⟨a, _ | ⟨b, rest⟩⟩
    · unfold getComponent; rw [hm]
    · rw [hm] at hlen; simp at hlen; omega
    · rw [hm] at hlen; simp at hlen; omega

/-- C4: a parameter declared as `List[e]` is bound to the ordered list
of recursively assembled instances, one per registered component
matching `e`, in registry (registration) order: the bound value is
exactly the result of assembling, left to right, the target type of
each element of `getComponents s e` (the order-preserving filter of the
registry), and its length equals the number of matching components. -/
theorem list_param_assembles_all_matches (env : Env) (fuel : Nat) (s s₁ s₂ : St) (p : Param)
    (ps : List Param) (args res : List (String × Value)) (e : String) (vs : List Value)
    (hp : p.ann = .listOf e)
    (heach : assembleEach env fuel s ((getComponents s e).map (fun c => c.typeName)) =
      .ok (vs, s₁))
    (h : assembleParams env (fuel + 1) s (p :: ps) args = .ok (res, s₂)) :
    vs.length = (getComponents s e).length ∧
    assembleParams env fuel s₁ ps (setArg args p.name (.vlist vs)) = .ok (res, s₂) := by
  rw [assembleParams] at h
  simp only [hp, heach] at h
  constructor
  · have := assembleEach_length env _ fuel s vs s₁ heach
    simpa using this
  · exact h

/-- C5: for a class whose constructor parameter carries both a default
value `d` and a class annotation with a unique registered component,
an `assemble` call without overrides binds the recursively assembled
component instance `v` to the parameter: the constructed object holds
`v` in that field, and the default `d` is not consulted. -/
theorem provider_preferred_over_default (env : Env) (fuel : Nat) (s s₁ : St) (t : String)
    (cls : PyClass) (p : Param) (a : String) (j : Nat) (ca : Component) (d v : Value)
    (hcls : lookupClass env t = some cls) (habs : cls.isAbstract = false)
    (hps : cls.params = [p]) (hann : p.ann = .cls a) (hdef : p.dflt = some d)
    (hself : getComponent s t = .ok none)
    (hcomp : getComponent s a = .ok (some (j, ca)))
    (hdep : assemble env fuel s ca.typeName [] = .ok (v, s₁)) :
    assemble env (fuel + 2) s t [] =
      .ok (.obj cls.name s₁.nextId [(p.name, v)], { s₁ with nextId := s₁.nextId + 1 }) := by
  have hparams : assembleParams env (fuel + 1) s cls.params [] = .ok ([(p.name, v)], s₁) := by
    rw [hps, assembleParams]
    simp only [hann, hcomp, hdep]
    rw [assembleParams]
    rfl
  have hcall : callClass s₁ cls [(p.name, v)] =
      .ok (.obj cls.name s₁.nextId [(p.name, v)], { s₁ with nextId := s₁.nextId + 1 }) := by
    rw [callClass, habs, hps]
    simp [bindParams, lookupArg]
  rw [assemble]
  simp only [hself, hcls, hparams, buildAndCache, hcall]

/-- C6: when a constructor parameter has no caller override, no
matching registered component, and no declared default (this code
version has no setting bindings at all), `assemble` fails with the
missing-required-argument TypeError raised by invoking the
constructor, an error naming the parameter and the type being
constructed. -/
theorem missing_dependency_error (env : Env) (fuel : Nat) (s : St) (t : String)
    (cls : PyClass) (p : Param) (a : String)
    (hcls : lookupClass env t = some cls) (habs : cls.isAbstract = false)
    (hps : cls.params = [p]) (hann : p.ann = .cls a) (hdef : p.dflt = none)
    (hself : getComponent s t = .ok none) (hcomp : getComponent s a = .ok none) :
    assemble env (fuel + 2) s t [] = .error (.missingArgument cls.name p.name) := by
  have hparams : assembleParams env (fuel + 1) s cls.params [] = .ok ([], s) := by
    rw [hps, assembleParams]
    simp only [hann, hcomp]
    rw [assembleParams]
  have hcall : callClass s cls [] = .error (.missingArgument cls.name p.name) := by
    rw [callClass, habs, hps]
    simp [bindParams, lookupArg, hdef]
  rw [assemble]
  simp only [hself, hcls, hparams, buildAndCache, hcall]

/-- C7 counterexample: the claim says `assemble` fails on any target
with an untyped constructor parameter, but assembling `U2` — whose
sole parameter has no type annotation yet carries a default — succeeds
and binds the default, because the code never checks for missing
annotations (the empty annotation simply matches no component). -/
theorem untyped_param_with_default_succeeds :
    assemble envW 3 stEmpty "U2" [] =
      .ok (.obj "U2" 0 [("service", .prim "d")], ⟨[], 1⟩) := rfl

/-- C7 amended: an untyped parameter is not checked or injected at all;
`assemble` fails — with the missing-required-argument TypeError from the
constructor call, not an early annotation check — exactly when the
untyped parameter also has no default (and no caller override), and
succeeds binding the default when one is declared. -/
theorem untyped_param_skipped (env : Env) (fuel : Nat) (s : St) (t₁ t₂ : String)
    (cls₁ cls₂ : PyClass) (p₁ p₂ : Param) (d : Value)
    (hcls₁ : lookupClass env t₁ = some cls₁) (habs₁ : cls₁.isAbstract = false)
    (hps₁ : cls₁.params = [p₁]) (hann₁ : p₁.ann = .untyped) (hdef₁ : p₁.dflt = none)
    (hself₁ : getComponent s t₁ = .ok none)
    (hcls₂ : lookupClass env t₂ = some cls₂) (habs₂ : cls₂.isAbstract = false)
    (hps₂ : cls₂.params = [p₂]) (hann₂ : p₂.ann = .untyped) (hdef₂ : p₂.dflt = some d)
    (hself₂ : getComponent s t₂ = .ok none) :
    assemble env (fuel + 2) s t₁ [] = .error (.missingArgument cls₁.name p₁.name)
    ∧ assemble env (fuel + 2) s t₂ [] =
        .ok (.obj cls₂.name s.nextId [(p₂.name, d)], { s with nextId := s.nextId + 1 }) := by
  constructor
  · have hparams : assembleParams env (fuel + 1) s cls₁.params [] = .ok ([], s) := by
      rw [hps₁, assembleParams]
      simp only [hann₁]
      rw [assembleParams]
    have hcall : callClass s cls₁ [] = .error (.missingArgument cls₁.name p₁.name) := by
      rw [callClass, habs₁, hps₁]
      simp [bindParams, lookupArg, hdef₁]
    rw [assemble]
    simp only [hself₁, hcls₁, hparams, buildAndCache, hcall]
  · have hparams : assembleParams env (fuel + 1) s cls₂.params [] = .ok ([], s) := by
      rw [hps₂, assembleParams]
      simp only [hann₂]
      rw [assembleParams]
    have hcall : callClass s cls₂ [] =
        .ok (.obj cls₂.name s.nextId [(p₂.name, d)], { s with nextId := s.nextId + 1 }) := by
      rw [callClass, habs₂, hps₂]
      simp [bindParams, lookupArg, hdef₂]
    rw [assemble]
    simp only [hself₂, hcls₂, hparams, buildAndCache, hcall]

/-- C8: registering the same exact type a second time fails with the
duplicate-registration TypeError; the error is raised before the append,
so in this state-passing embedding the failing call produces no updated
registry at all. -/
theorem duplicate_registration_rejected (env : Env) (s s₁ : St) (t : String)
    (b b' : Bool) (cls : PyClass)
    (hcls : lookupClass env t = some cls) (hmro : t ∈ cls.mro)
    (hreg : registerComponent env s t b = .ok s₁) :
    registerComponent env s₁ t b' = .error (.alreadyRegistered t) := by
  rw [registerComponent] at hreg
  simp only [hcls] at hreg
  by_cases habs : cls.isAbstract
  · rw [if_pos habs] at hreg; cases hreg
  · rw [if_neg habs] at hreg
    cases hg : getComponent s t with
    | error e => rw [hg] at hreg; cases hreg
    | ok o =>
      cases o with
      | some ic => rw [hg] at hreg; cases hreg
      | none =>
        rw [hg] at hreg
        injection hreg with hreg
        have hempty := getComponent_none_findMatchIdx s t hg
        have hmatch : Component.matchesType ⟨t, b, cls.mro, none⟩ t = true :=
          List.elem_iff.mpr hmro
        have hnew : findMatchIdx (s.components ++ [⟨t, b, cls.mro, none⟩]) t 0 =
            [(0 + s.components.length, ⟨t, b, cls.mro, none⟩)] := by
          rw [findMatchIdx_append_single _ _ _ _ hempty, if_pos hmatch]
        have hg1 : getComponent s₁ t =
            .ok (some (0 + s.components.length, ⟨t, b, cls.mro, none⟩)) := by
          rw [← hreg]
          unfold getComponent
          rw [show ({ s with components := s.components ++ [⟨t, b, cls.mro, none⟩] } : St).components
              = s.components ++ [⟨t, b, cls.mro, none⟩] from rfl, hnew]
        rw [registerComponent]
        simp only [hcls, if_neg habs, hg1]

/-- C10: a parameter declared as `List[e]` for which no registered
component matches `e` is bound to the empty list: assembly succeeds and
the declared default of the parameter (left arbitrary here) is not used. -/
theorem empty_list_for_unmatched_list_param (env : Env) (fuel : Nat) (s : St) (t e : String)
    (cls : PyClass) (p : Param)
    (hcls : lookupClass env t = some cls) (habs : cls.isAbstract = false)
    (hps : cls.params = [p]) (hann : p.ann = .listOf e)
    (hno : getComponents s e = [])
    (hself : getComponent s t = .ok none) :
    assemble env (fuel + 2) s t [] =
      .ok (.obj cls.name s.nextId [(p.name, .vlist [])], { s with nextId := s.nextId + 1 }) := by
  have hparams : assembleParams env (fuel + 1) s cls.params [] =
      .ok ([(p.name, .vlist [])], s) := by
    rw [hps, assembleParams]
    simp only [hann, hno, List.map_nil, assembleEach]
    rw [assembleParams]
    rfl
  have hcall : callClass s cls [(p.name, .vlist [])] =
      .ok (.obj cls.name s.nextId [(p.name, .vlist [])], { s with nextId := s.nextId + 1 }) := by
    rw [callClass, habs, hps]
    simp [bindParams, lookupArg]
  rw [assemble]
  simp only [hself, hcls, hparams, buildAndCache, hcall]

/-! ### Concrete witnesses exercising the claim theorems -/

/-- The state after `MA` and `MB` have been assembled once each. -/
def stMI2 : St := ⟨[⟨"MA", true, ["MA", "MI"], some (.obj "MA" 0 [])⟩,
                    ⟨"MB", true, ["MB", "MI"], some (.obj "MB" 1 [])⟩], 2⟩

/-- Witness for C3 at concrete inputs: with `MA` and `MB` both
matching `MI`, assembling `MI` raises the ambiguity error, and on the
empty registry the lookup for `MI` returns `none`. -/
theorem ambiguous_or_absent_lookup_witness :
    assemble envW 1 stMI "MI" [] = .error (.ambiguous "MI")
    ∧ getComponent stEmpty "MI" = .ok none :=
  ⟨(ambiguous_or_absent_lookup stMI "MI").1 (by decide) envW 0 [],
   (ambiguous_or_absent_lookup stEmpty "MI").2 (by decide)⟩

/-- Witness for C4 at concrete inputs: the `services : List[MI]`
parameter of `CL` is bound to the two assembled implementations of
`MI`, in registration order `MA` then `MB`. -/
theorem list_param_assembles_all_matches_witness :
    ([Value.obj "MA" 0 [], Value.obj "MB" 1 []].length =
       (getComponents stMI "MI").length)
    ∧ assembleParams envW 3 stMI2 []
        (setArg [] "services" (.vlist [.obj "MA" 0 [], .obj "MB" 1 []])) =
      .ok ([("services", .vlist [.obj "MA" 0 [], .obj "MB" 1 []])], stMI2) :=
  list_param_assembles_all_matches envW 3 stMI stMI2 stMI2
    ⟨"services", .listOf "MI", none⟩ [] []
    [("services", .vlist [.obj "MA" 0 [], .obj "MB" 1 []])] "MI"
    [.obj "MA" 0 [], .obj "MB" 1 []] rfl rfl rfl

/-- The registry of `stSB` after `SB` has been assembled once. -/
def stSB1 : St := ⟨[⟨"SB", true, ["SB"], some (.obj "SB" 0 [])⟩], 1⟩

/-- Witness for C5 at concrete inputs: `CB` declares
`service_b : SB = BDefault`; with `SB` registered, assembly binds the
assembled `SB` instance, not the default. -/
theorem provider_preferred_over_default_witness :
    assemble envW 4 stSB "CB" [] =
      .ok (.obj "CB" 1 [("service_b", .obj "SB" 0 [])], { stSB1 with nextId := 2 }) :=
  provider_preferred_over_default envW 2 stSB stSB1 "CB"
    ⟨"CB", ["CB"], false, [⟨"service_b", .cls "SB", some (.prim "BDefault")⟩]⟩
    ⟨"service_b", .cls "SB", some (.prim "BDefault")⟩ "SB" 0
    ⟨"SB", true, ["SB"], none⟩ (.prim "BDefault") (.obj "SB" 0 [])
    rfl rfl rfl rfl rfl rfl rfl rfl

/-- Witness for C6 at concrete inputs: `NC` depends on the unregistered
`Nowhere` with no default, so assembly fails naming `NC` and `dep`. -/
theorem missing_dependency_error_witness :
    assemble envW 4 stEmpty "NC" [] = .error (.missingArgument "NC" "dep") :=
  missing_dependency_error envW 2 stEmpty "NC"
    ⟨"NC", ["NC"], false, [⟨"dep", .cls "Nowhere", none⟩]⟩
    ⟨"dep", .cls "Nowhere", none⟩ "Nowhere" rfl rfl rfl rfl rfl rfl rfl

/-- Witness for the amended C7 at concrete inputs: `U1` (untyped, no
default) fails with the missing-argument TypeError while `U2` (untyped,
default `d`) assembles successfully. -/
theorem untyped_param_skipped_witness :
    assemble envW 3 stEmpty "U1" [] = .error (.missingArgument "U1" "service")
    ∧ assemble envW 3 stEmpty "U2" [] =
        .ok (.obj "U2" 0 [("service", .prim "d")], { stEmpty with nextId := 1 }) :=
  untyped_param_skipped envW 1 stEmpty "U1" "U2"
    ⟨"U1", ["U1"], false, [⟨"service", .untyped, none⟩]⟩
    ⟨"U2", ["U2"], false, [⟨"service", .untyped, some (.prim "d")⟩]⟩
    ⟨"service", .untyped, none⟩ ⟨"service", .untyped, some (.prim "d")⟩ (.prim "d")
    rfl rfl rfl rfl rfl rfl rfl rfl rfl rfl rfl rfl

/-- Witness for C8 at concrete inputs: registering `S` on the empty
registry succeeds and produces `stS`; registering `S` again fails with
the duplicate-registration error. -/
theorem duplicate_registration_rejected_witness :
    registerComponent envW stS "S" false = .error (.alreadyRegistered "S") :=
  duplicate_registration_rejected envW stEmpty stS "S" true false
    ⟨"S", ["S"], false, []⟩ rfl (by decide) rfl

/-- Witness for C10 at concrete inputs: `EL` declares
`caps : List[MI] = unusedDefault`; on the empty registry the parameter
is bound to the empty list and assembly succeeds. -/
theorem empty_list_for_unmatched_list_param_witness :
    assemble envW 3 stEmpty "EL" [] =
      .ok (.obj "EL" 0 [("caps", .vlist [])], { stEmpty with nextId := 1 }) :=
  empty_list_for_unmatched_list_param envW 1 stEmpty "EL" "MI"
    ⟨"EL", ["EL"], false, [⟨"caps", .listOf "MI", some (.prim "unusedDefault")⟩]⟩
    ⟨"caps", .listOf "MI", some (.prim "unusedDefault")⟩
    rfl rfl rfl rfl rfl rfl

/-! ### The singleton-cache guarantees (claims about lifecycle) -/

theorem findMatchIdx_mem : ∀ (l : List Component) (t : String) (k i : Nat) (c : Component),
    (i, c) ∈ findMatchIdx l t k →
    k ≤ i ∧ l.get? (i - k) = some c ∧ c.matchesType t = true := by
  intro l
  induction l with
  | nil =>
    intro t k i c h
    rw [findMatchIdx] at h
    cases h
  | cons d ds ih =>
    intro t k i c h
    rw [findMatchIdx] at h
    by_cases hd : d.matchesType t
    · rw [if_pos hd] at h
      rcases List.mem_cons.mp h with h0 | hrest
      · injection h0 with hik hcd
        subst hik
        subst hcd
        refine ⟨Nat.le_refl _, ?_, hd⟩
        rw [Nat.sub_self]
        rfl
      · obtain ⟨hk, hg, hm⟩ := ih t (k + 1) i c hrest
        refine ⟨by omega, ?_, hm⟩
        have hik : i - k = (i - (k + 1)) + 1 := by omega
        rw [hik]
        exact hg
    · rw [if_neg hd] at h
      obtain ⟨hk, hg, hm⟩ := ih t (k + 1) i c h
      refine ⟨by omega, ?_, hm⟩
      have hik : i - k = (i - (k + 1)) + 1 := by omega
      rw [hik]
      exact hg

theorem getComponent_spec {s : St} {t : String} {i : Nat} {c : Component}
    (h : getComponent s t = .ok (some (i, c))) :
    s.components.get? i = some c ∧ c.matchesType t = true := by
  unfold getComponent at h
  split at h
  · cases h
  · rename_i ic heq
    injection h with h
    injection h with h
    subst h
    have hmem : (i, c) ∈ findMatchIdx s.components t 0 := by
      rw [heq]
      exact List.mem_singleton.mpr rfl
    obtain ⟨_, hg, hm⟩ := findMatchIdx_mem s.components t 0 i c hmem
    rw [Nat.sub_zero] at hg
    exact ⟨hg, hm⟩
  · cases h

theorem findMatchIdx_congr : ∀ (l l' : List Component) (t : String) (k : Nat),
    l.length = l'.length →
    (∀ j cj cj', l.get? j = some cj → l'.get? j = some cj' →
      cj'.baseClasses = cj.baseClasses) →
    List.Forall₂ (fun ic ic' => ic.1 = ic'.1) (findMatchIdx l t k) (findMatchIdx l' t k) := by
  intro l
  induction l with
  | nil =>
    intro l' t k hlen hbc
    cases l' with
    | nil => simp [findMatchIdx]
    | cons d' ds' => simp at hlen
  | cons d ds ih =>
    intro l' t k hlen hbc
    cases l' with
    | nil => simp at hlen
    | cons d' ds' =>
      have hd : d'.baseClasses = d.baseClasses := hbc 0 d d' rfl rfl
      have hmeq : d'.matchesType t = d.matchesType t := by
        simp [Component.matchesType, hd]
      have hlen' : ds.length = ds'.length := by simpa using hlen
      have hbc' : ∀ j cj cj', ds.get? j = some cj → ds'.get? j = some cj' →
          cj'.baseClasses = cj.baseClasses := by
        intro j cj cj' h1 h2
        exact hbc (j + 1) cj cj' h1 h2
      rw [findMatchIdx, findMatchIdx, hmeq]
      by_cases hm : d.matchesType t
      · rw [if_pos hm, if_pos hm]
        exact List.Forall₂.cons rfl (ih ds' t (k + 1) hlen' hbc')
      · rw [if_neg hm, if_neg hm]
        exact ih ds' t (k + 1) hlen' hbc'

theorem getComponent_congr {s s' : St} {t : String} {i : Nat} {c : Component}
    (hg : getComponent s t = .ok (some (i, c)))
    (hlen : s'.components.length = s.components.length)
    (hbc : ∀ j cj cj', s.components.get? j = some cj → s'.components.get? j = some cj' →
      cj'.baseClasses = cj.baseClasses) :
    ∃ c', getComponent s' t = .ok (some (i, c')) ∧ s'.components.get? i = some c' := by
  have hf := findMatchIdx_congr s.components s'.components t 0 hlen.symm hbc
  unfold getComponent at hg
  split at hg
  · cases hg
  · rename_i ic heq
    injection hg with hg
    injection hg with hg
    subst hg
    rw [heq] at hf
    rcases hx : findMatchIdx s'.components t 0 with _ | ⟨⟨i', c'⟩, rest'⟩
    · rw [hx] at hf
      cases hf
    · rw [hx] at hf
      cases hf with
      | cons hR htail =>
        cases htail
        have hii : i = i' := hR
        have hmem : (i', c') ∈ findMatchIdx s'.components t 0 := by
          rw [hx]
          exact List.mem_singleton.mpr rfl
        obtain ⟨_, hget, _⟩ := findMatchIdx_mem s'.components t 0 i' c' hmem
        rw [Nat.sub_zero] at hget
        refine ⟨c', ?_, by rw [hii]; exact hget⟩
        unfold getComponent
        rw [hx, hii]
  · cases hg

theorem buildAndCache_some {s : St} {cls : PyClass} {args : List (String × Value)}
    {i : Nat} {v : Value} {s' : St}
    (h : buildAndCache s cls args (some i) = .ok (v, s')) :
    ∃ s₂, callClass s cls args = .ok (v, s₂) ∧ setInstanceAt s₂ i v = .ok s' := by
  rw [buildAndCache] at h
  split at h
  · cases h
  · rename_i v0 s₂ hcall
    dsimp only at h
    split at h
    · cases h
    · rename_i s₃ hset
      injection h with h
      injection h with h1 h2
      subst h1
      subst h2
      exact ⟨s₂, hcall, hset⟩

theorem assemble_sets_cache {env : Env} {fuel : Nat} {s : St} {t : String}
    {kwargs : List (String × Value)} {i : Nat} {c : Component} {v : Value} {s' : St}
    (hg : getComponent s t = .ok (some (i, c))) (hs : c.isSingleton = true)
    (hi : c.inst = none)
    (h : assemble env fuel s t kwargs = .ok (v, s')) :
    ∃ c', s'.components.get? i = some c' ∧ c'.isSingleton = true ∧
      c'.baseClasses = c.baseClasses ∧ c'.inst = some v := by
  match fuel with
  | 0 => rw [assemble] at h; cases h
  | f + 1 =>
    have hgi : getInstance c = .ok none := by simp [getInstance, hs, hi]
    rw [assemble] at h
    simp only [hg, hgi] at h
    split at h
    · cases h
    · rename_i cls hcls
      split at h
      · cases h
      · rename_i args1 s₁ hP
        have eP : StEvol s s₁ := (evol_all f).2.1 _ _ _ _ _ _ hP
        obtain ⟨s₂, hcall, hset⟩ := buildAndCache_some h
        obtain ⟨hceq, _⟩ := callClass_evol hcall
        have hgetS : s.components.get? i = some c := (getComponent_spec hg).1
        obtain ⟨_, hlen1, hpt⟩ := eP
        have hiltS : i < s.components.length := by
          rcases List.get?_eq_some.mp hgetS with ⟨hl, _⟩
          exact hl
        have hilt1 : i < s₁.components.length := by omega
        have hget1 := List.get?_eq_get hilt1
        have hce : compEvol c (s₁.components.get ⟨i, hilt1⟩) := hpt i c _ hgetS hget1
        rw [setInstanceAt] at hset
        rw [hceq, hget1] at hset
        dsimp only at hset
        have hsing2 : (s₁.components.get ⟨i, hilt1⟩).isSingleton = true := by
          rw [hce.2.1, hs]
        rw [if_pos hsing2] at hset
        cases hinst2 : (s₁.components.get ⟨i, hilt1⟩).inst with
        | some w => rw [hinst2] at hset; cases hset
        | none =>
          rw [hinst2] at hset
          injection hset with hset
          rw [← hset]
          refine ⟨{ s₁.components.get ⟨i, hilt1⟩ with inst := some v }, ?_,
            hsing2, hce.2.2.1, rfl⟩
          show (s₁.components.set i _).get? i = _
          rw [List.get?_eq_getElem?, List.getElem?_set_self hilt1]

theorem assemble_fresh {env : Env} {fuel : Nat} {s : St} {t : String}
    {kwargs : List (String × Value)} {i : Nat} {c : Component} {v : Value} {s' : St}
    (hg : getComponent s t = .ok (some (i, c))) (hgi : getInstance c = .ok none)
    (h : assemble env fuel s t kwargs = .ok (v, s')) :
    ∃ cn idn fs, v = .obj cn idn fs ∧ s.nextId ≤ idn ∧ idn < s'.nextId := by
  match fuel with
  | 0 => rw [assemble] at h; cases h
  | f + 1 =>
    rw [assemble] at h
    simp only [hg, hgi] at h
    split at h
    · cases h
    · rename_i cls hcls
      split at h
      · cases h
      · rename_i args1 s₁ hP
        obtain ⟨hn1, _, _⟩ := (evol_all f).2.1 _ _ _ _ _ _ hP
        obtain ⟨s₂, hcall, hset⟩ := buildAndCache_some h
        rw [callClass] at hcall
        split at hcall
        · cases hcall
        · split at hcall
          · cases hcall
          · split at hcall
            · cases hcall
            · rename_i fields hbind
              injection hcall with hcall
              injection hcall with hv hs2
              obtain ⟨_, hsetn⟩ := setInstanceAt_evol hset
              refine ⟨cls.name, s₁.nextId, fields, hv.symm, hn1, ?_⟩
              rw [hsetn, ← hs2]
              exact Nat.lt_succ_self _

/-- C2: a singleton component yields the identical instance on every
pair of successive successful `assemble` calls for its type, while a
transient (`singleton=False`) component yields distinct instances
(distinct allocation ids, the model of reference inequality). -/
theorem singleton_identity_transient_distinct :
    (∀ env f₁ f₂ s t i c v₁ s₁ v₂ s₂,
      getComponent s t = .ok (some (i, c)) → c.isSingleton = true →
      assemble env f₁ s t [] = .ok (v₁, s₁) →
      assemble env f₂ s₁ t [] = .ok (v₂, s₂) → v₂ = v₁)
    ∧ (∀ env f₁ f₂ s t i c v₁ s₁ v₂ s₂,
      getComponent s t = .ok (some (i, c)) → c.isSingleton = false →
      assemble env f₁ s t [] = .ok (v₁, s₁) →
      assemble env f₂ s₁ t [] = .ok (v₂, s₂) → v₁ ≠ v₂) := by
  constructor
  · intro env f₁ f₂ s t i c v₁ s₁ v₂ s₂ hg hsing h1 h2
    cases hinst : c.inst with
    | some w =>
      match f₁ with
      | 0 => rw [assemble] at h1; cases h1
      | f + 1 =>
        have hgi : getInstance c = .ok (some w) := by simp [getInstance, hsing, hinst]
        rw [assemble] at h1
        simp only [hg, hgi] at h1
        injection h1 with h1
        injection h1 with hv1 hs1
        match f₂ with
        | 0 => rw [assemble] at h2; cases h2
        | f' + 1 =>
          rw [assemble] at h2
          rw [← hs1] at h2
          simp only [hg, hgi] at h2
          injection h2 with h2
          injection h2 with hv2 hs2'
          rw [← hv2, ← hv1]
    | none =>
      obtain ⟨c', hget', hsing', hbc', hinst'⟩ := assemble_sets_cache hg hsing hinst h1
      obtain ⟨hn, hlen, hpt⟩ := assemble_evol h1
      have hbcall : ∀ j cj cj', s.components.get? j = some cj →
          s₁.components.get? j = some cj' → cj'.baseClasses = cj.baseClasses := by
        intro j cj cj' ha hb
        exact (hpt j cj cj' ha hb).2.2.1
      obtain ⟨c'', hg2, hget2⟩ := getComponent_congr hg hlen hbcall
      rw [hget'] at hget2
      injection hget2 with hcc
      match f₂ with
      | 0 => rw [assemble] at h2; cases h2
      | f' + 1 =>
        have hgi2 : getInstance c'' = .ok (some v₁) := by
          rw [← hcc]
          simp [getInstance, hsing', hinst']
        rw [assemble] at h2
        simp only [hg2, hgi2] at h2
        injection h2 with h2
        injection h2 with hv2 hs2'
        exact hv2.symm
  · intro env f₁ f₂ s t i c v₁ s₁ v₂ s₂ hg hsing h1 h2
    cases hinst : c.inst with
    | some w =>
      match f₁ with
      | 0 => rw [assemble] at h1; cases h1
      | f + 1 =>
        have hgi : getInstance c = .error .assertionFailed := by
          simp [getInstance, hsing, hinst]
        rw [assemble] at h1
        simp only [hg, hgi] at h1
        cases h1
    | none =>
      have hgi : getInstance c = .ok none := by simp [getInstance, hsing, hinst]
      obtain ⟨cn₁, id₁, fs₁, hv1, hlo1, hhi1⟩ := assemble_fresh hg hgi h1
      obtain ⟨hn1, hlen1, hpt1⟩ := assemble_evol h1
      have hbcall : ∀ j cj cj', s.components.get? j = some cj →
          s₁.components.get? j = some cj' → cj'.baseClasses = cj.baseClasses := by
        intro j cj cj' ha hb
        exact (hpt1 j cj cj' ha hb).2.2.1
      obtain ⟨c'', hg2, hget2⟩ := getComponent_congr hg hlen1 hbcall
      have hgetS : s.components.get? i = some c := (getComponent_spec hg).1
      have hce : compEvol c c'' := hpt1 i c c'' hgetS hget2
      have hsing2 : c''.isSingleton = false := by rw [hce.2.1, hsing]
      have hinst2 : c''.inst = none := by
        rcases hce.2.2.2 with hh | ⟨_, hcs, _⟩
        · rw [hh, hinst]
        · rw [hcs] at hsing; cases hsing
      have hgi2 : getInstance c'' = .ok none := by simp [getInstance, hsing2, hinst2]
      obtain ⟨cn₂, id₂, fs₂, hv2, hlo2, hhi2⟩ := assemble_fresh hg2 hgi2 h2
      intro heq
      rw [hv1, hv2] at heq
      injection heq with he1 he2 he3
      omega

/-- C9: the cache contract of `_Component`.  A freshly registered
component has an empty cache; a successful `assemble` never overwrites
a populated cache (the entry keeps exactly its cached value); and when
`assemble` finds a singleton component for the requested type with a
populated cache, it returns that instance immediately with the state
unchanged (no provider re-invocation, no side effects). -/
theorem singleton_cache_invariant :
    (∀ env s t b s₁ cls, registerComponent env s t b = .ok s₁ →
      lookupClass env t = some cls →
      s₁.components.get? s.components.length = some ⟨t, b, cls.mro, none⟩)
    ∧ (∀ env fuel s t kwargs v s' j c w, assemble env fuel s t kwargs = .ok (v, s') →
      s.components.get? j = some c → c.inst = some w →
      (s'.components.get? j).map Component.inst = some (some w))
    ∧ (∀ env fuel s t kwargs i c v, getComponent s t = .ok (some (i, c)) →
      c.isSingleton = true → c.inst = some v →
      assemble env (fuel + 1) s t kwargs = .ok (v, s)) := by
  refine ⟨?_, ?_, ?_⟩
  · intro env s t b s₁ cls hreg hcls
    rw [registerComponent] at hreg
    simp only [hcls] at hreg
    split at hreg
    · cases hreg
    · split at hreg
      · cases hreg
      · cases hreg
      · injection hreg with hreg
        rw [← hreg]
        show (s.components ++ [(⟨t, b, cls.mro, none⟩ : Component)]).get? s.components.length
          = some ⟨t, b, cls.mro, none⟩
        rw [List.get?_eq_getElem?]
        exact List.getElem?_concat_length _ _
  · intro env fuel s t kwargs v s' j c w h hj hw
    obtain ⟨_, hlen, hpt⟩ := assemble_evol h
    have hjlt : j < s.components.length := by
      rcases List.get?_eq_some.mp hj with ⟨hl, _⟩
      exact hl
    have hjlt' : j < s'.components.length := by omega
    have hget' := List.get?_eq_get hjlt'
    rw [hget']
    have hce := hpt j c _ hj hget'
    have : (s'.components.get ⟨j, hjlt'⟩).inst = some w := by
      rcases hce.2.2.2 with hh | ⟨hn, _, _⟩
      · rw [hh, hw]
      · rw [hn] at hw; cases hw
    rw [Option.map_some', this]
  · intro env fuel s t kwargs i c v hg hsing hinst
    have hgi : getInstance c = .ok (some v) := by simp [getInstance, hsing, hinst]
    rw [assemble]
    simp only [hg, hgi]

/-- Registry of `stS` after one assembly of `S`: the singleton cache
holds the instance with allocation id 0. -/
def stS1 : St := ⟨[⟨"S", true, ["S"], some (.obj "S" 0 [])⟩], 1⟩

/-- Registry of `stT` after one assembly of `T`: no cache, counter 1. -/
def stT1 : St := ⟨[⟨"T", false, ["T"], none⟩], 1⟩

/-- Registry of `stT` after two assemblies of `T`. -/
def stT2 : St := ⟨[⟨"T", false, ["T"], none⟩], 2⟩

/-- Witness for C2 at concrete inputs: two assemblies of the singleton
`S` both return the id-0 instance, while two assemblies of the
transient `T` return the distinct id-0 and id-1 instances. -/
theorem singleton_identity_transient_distinct_witness :
    (Value.obj "S" 0 [] = Value.obj "S" 0 []) ∧ Value.obj "T" 0 [] ≠ Value.obj "T" 1 [] :=
  ⟨singleton_identity_transient_distinct.1 envW 2 2 stS "S" 0 ⟨"S", true, ["S"], none⟩
     (.obj "S" 0 []) stS1 (.obj "S" 0 []) stS1 rfl rfl rfl rfl,
   singleton_identity_transient_distinct.2 envW 2 2 stT "T" 0 ⟨"T", false, ["T"], none⟩
     (.obj "T" 0 []) stT1 (.obj "T" 1 []) stT2 rfl rfl rfl rfl⟩

/-- Witness for C9 at concrete inputs: registering `S` creates an entry
with an empty cache; an assembly on a registry whose `S` cache is
populated keeps the cached value; and with the cache populated,
`assemble` returns the cached id-0 instance with the state unchanged. -/
theorem singleton_cache_invariant_witness :
    stS.components.get? stEmpty.components.length = some ⟨"S", true, ["S"], none⟩
    ∧ (stS1.components.get? 0).map Component.inst = some (some (.obj "S" 0 []))
    ∧ assemble envW 1 stS1 "S" [] = .ok (.obj "S" 0 [], stS1) :=
  ⟨singleton_cache_invariant.1 envW stEmpty "S" true stS ⟨"S", ["S"], false, []⟩ rfl rfl,
   singleton_cache_invariant.2.1 envW 2 stS1 "S" [] (.obj "S" 0 []) stS1 0
     ⟨"S", true, ["S"], some (.obj "S" 0 [])⟩ (.obj "S" 0 []) rfl rfl rfl,
   singleton_cache_invariant.2.2 envW 0 stS1 "S" [] 0
     ⟨"S", true, ["S"], some (.obj "S" 0 [])⟩ (.obj "S" 0 []) rfl rfl rfl⟩

end Enterprython
